import Mathlib

/-!
Shallow embedding of `src/python/momentum_events.py` (NBA momentum detection).

Conventions of the embedding:
* A play-by-play row (`pbpGameData` row) is a `PbpEvent`; the table is a
  `List PbpEvent`, assumed (as the source documents) sorted ascending by
  `eventClock` with ties already resolved upstream.  Event clocks are modelled
  as whole seconds (`Nat`), scores as `Int` (the source coerces with
  `astype(int)`).
* Pandas floats are modelled as `ℚ`; a value that pandas would represent as
  `NaN` (a forward-fill before the first recorded second) is modelled as
  `none : Option ℚ`, and the significance filter `abs(x) >= thr` drops such
  values exactly as the pandas comparison with NaN is false.
* The `while` loop of `findGameMomentumEvents` is written with an explicit
  fuel argument; the top-level entry point supplies fuel `gameDuration + 1`,
  which is enough because the cursor strictly increases every iteration
  (proved below).
-/

structure PbpEvent where
  gameid : Nat
  eventClock : Nat
  scoreHome : Int
  scoreAway : Int
deriving DecidableEq, Repr, Inhabited

inductive Side where
  | Home : Side
  | Away : Side
deriving DecidableEq, Repr, Inhabited

/-- `score_diff = scoreHome - scoreAway` (line 31 / 213 of the source). -/
def scoreDiffOf (e : PbpEvent) : Int :=
  e.scoreHome - e.scoreAway

/-- `pbpGameData['eventClock'].max()` (0 for an empty table; the source would
fail on an empty table, which we never instantiate). -/
def maxEventClock (events : List PbpEvent) : Nat :=
  (events.map (fun e => e.eventClock)).foldr max 0

/-- `pbpGameData['gameid'].max()`. -/
def maxGameId (events : List PbpEvent) : Nat :=
  (events.map (fun e => e.gameid)).foldr max 0

/-- The last recorded score differential at or before second `t`:
`groupby('eventClock')['score_diff'].last()` followed by forward-fill lookup.
`none` when no event has happened yet at `t` (pandas: NaN). -/
def lookupLE (events : List PbpEvent) (t : Nat) : Option Int :=
  (events.reverse.find? (fun e => e.eventClock ≤ t)).map scoreDiffOf

/-- The last recorded score differential strictly before second `t`. -/
def lookupLT (events : List PbpEvent) (t : Nat) : Option Int :=
  (events.reverse.find? (fun e => e.eventClock < t)).map scoreDiffOf

/-- Lines 37-38: the reference differential just before `start_time`, with
the caller-supplied default 0 when no event precedes `start_time`. -/
def scoreDiffStart (events : List PbpEvent) (s : Nat) : Int :=
  (lookupLT events s).getD 0

/-- Line 28: `range(start_time + time_min, min(start_time + time_max,
int(pbpGameData['eventClock'].max())) + 1)`. -/
def timeRange (events : List PbpEvent) (s tmin tmax : Nat) : List Nat :=
  (List.range (min (s + tmax) (maxEventClock events) + 1 - (s + tmin))).map
    (fun i => i + (s + tmin))

/-- `calculateExplosiveness` (lines 4-49), value semantics: the series of
`(t, intensity)` pairs over the evaluation window.  The intensity is `none`
where the forward-filled differential is NaN (no event at or before `t`). -/
def calculateExplosiveness (events : List PbpEvent) (s tmin tmax : Nat) :
    List (Nat × Option ℚ) :=
  (timeRange events s tmin tmax).map (fun t =>
    (t, Option.map (fun v : Int =>
      ((v : ℚ) - (scoreDiffStart events s : ℚ)) / ((t : ℚ) - (s : ℚ)))
      (lookupLE events t)))

/-- A pandas DataFrame for one game: its event rows plus the derived
`score_diff` column when it has been written (line 31 writes it onto the
caller's frame). -/
structure PbpTable where
  rows : List PbpEvent
  scoreDiffCol : Option (List Int)
deriving DecidableEq, Repr

/-- `calculateExplosiveness` with its frame effect: line 31 assigns
`pbpGameData['score_diff'] = ...` on the input table, so the call returns
both the updated table and the intensity series. -/
def calculateExplosivenessTable (tbl : PbpTable) (s tmin tmax : Nat) :
    PbpTable × List (Nat × Option ℚ) :=
  ({ rows := tbl.rows, scoreDiffCol := some (tbl.rows.map scoreDiffOf) },
   calculateExplosiveness tbl.rows s tmin tmax)

/-- One raw per-second momentum record (the dicts appended at lines 109-116
and 122-129). -/
structure RawRecord where
  gameId : Nat
  buildUpStart : Nat
  momentumStart : Option Nat
  endTime : Nat
  intensity : ℚ
  side : Side
deriving DecidableEq, Repr, Inhabited

/-- `'Away Momentum' if intensity < 0 else 'Home Momentum'` (lines 108, 121). -/
def sideOf (q : ℚ) : Side :=
  if q < 0 then Side.Away else Side.Home

/-- Line 88: keep the samples whose `abs(intensity) >= threshold`; a NaN
intensity (`none`) compares false and is dropped. -/
def significantSamples (events : List PbpEvent) (thr : ℚ) (s tmin tmax : Nat) :
    List (Nat × ℚ) :=
  (calculateExplosiveness events s tmin tmax).filterMap (fun p =>
    match p.2 with
    | none => none
    | some q => if thr ≤ |q| then some (p.1, q) else none)

/-- The `for moment_time, intensity in significantMomentumIntervals.items()`
walk (lines 98-132).  State: prevailing direction, the rolling
`firstSignificant_time`, and the momentum start.  Returns the emitted records
and `some t` when the walk broke at a reversal at time `t` (line 117-118),
`none` when it exhausted the samples. -/
def walkAux (gid cur tmin : Nat) :
    List (Nat × ℚ) → Side → Nat → Option Nat → List RawRecord × Option Nat
  | [], _, _, _ => ([], none)
  | (t, q) :: rest, dir, firstSig, mStart =>
    let cd := sideOf q
    let mStart2 :=
      if mStart = none ∧ (tmin : Int) ≤ (t : Int) - (cur : Int) ∧ cd = dir then
        some t
      else mStart
    if 1 < (t : Int) - (firstSig : Int) ∧ cd ≠ dir then
      ([⟨gid, cur, mStart2, t, q, cd⟩], some t)
    else
      let res := walkAux gid cur tmin rest cd t mStart2
      (⟨gid, cur, mStart2, t, q, cd⟩ :: res.1, res.2)

/-- One iteration of the `while current_time <= game_duration` body
(lines 84-138): the produced records and the new cursor.  Line 135,
`current_time = significantMomentumIntervals.index[-1] + 1`, is indented at
the `for` statement's level, so it executes after the walk whether the walk
broke at a reversal or exhausted the samples; the `current_time =
moment_time` of line 117 is a dead store, immediately overwritten.  When
any sample is significant the new cursor is therefore always one past the
last significant sample's time. -/
def scanStep (events : List PbpEvent) (thr : ℚ) (tmin tmax gid cur : Nat) :
    List RawRecord × Nat :=
  match significantSamples events thr cur tmin tmax with
  | [] => ([], cur + 1)
  | (t0, q0) :: rest =>
    ((walkAux gid cur tmin ((t0, q0) :: rest) (sideOf q0) t0 none).1,
     (rest.getLastD (t0, q0)).1 + 1)

/-- The `while` loop of lines 83-138, with explicit fuel. -/
def scanLoop (events : List PbpEvent) (thr : ℚ) (tmin tmax gid gd : Nat) :
    Nat → Nat → List RawRecord
  | 0, _ => []
  | fuel + 1, cur =>
    if cur ≤ gd then
      let res := scanStep events thr tmin tmax gid cur
      res.1 ++ scanLoop events thr tmin tmax gid gd fuel res.2
    else []

/-- Line 77: `game_duration = int(max(max_event_time, 2880))`. -/
def gameDurationOf (events : List PbpEvent) : Nat :=
  max (maxEventClock events) 2880

/-- The raw (pre-aggregation) record list produced by
`findGameMomentumEvents`: the scan from second 1.  Fuel `gameDuration + 1`
is enough because the cursor strictly increases every iteration. -/
def findGameMomentumEventsRaw (events : List PbpEvent) (thr : ℚ)
    (tmin tmax : Nat) : List RawRecord :=
  scanLoop events thr tmin tmax (maxGameId events) (gameDurationOf events)
    (gameDurationOf events + 1) 1

/-- One aggregated momentum episode (the row schema of lines 144-158). -/
structure Episode where
  gameId : Nat
  buildUpStart : Nat
  momentumStart : Option Nat
  endTime : Nat
  duration : Option Int
  avgIntensity : ℚ
  peakIntensityMax : ℚ
  peakIntensityMin : ℚ
  side : Side
deriving DecidableEq, Repr

/-- Distinct keys in first-occurrence order (the groups of a pandas
`groupby`; here the key sequence is nondecreasing along the detector output,
so first-occurrence order coincides with pandas' sorted group order). -/
def dedupKeys {α : Type} [DecidableEq α] : List α → List α
  | [] => []
  | k :: ks => k :: (dedupKeys ks).filter (fun x => x ≠ k)

/-- Maximum of a list of rationals (pandas `max` over a nonempty group). -/
def listMax : List ℚ → ℚ
  | [] => 0
  | [x] => x
  | x :: y :: xs => max x (listMax (y :: xs))

/-- Minimum of a list of rationals (pandas `min` over a nonempty group). -/
def listMin : List ℚ → ℚ
  | [] => 0
  | [x] => x
  | x :: y :: xs => min x (listMin (y :: xs))

/-- Maximum of a list of naturals (pandas `max` over a nonempty group). -/
def listMaxN : List Nat → Nat
  | [] => 0
  | [x] => x
  | x :: y :: xs => max x (listMaxN (y :: xs))

/-- The aggregation of one `build_up_start_time` group (lines 144-154):
`momentum_start_time` by `min` (pandas skips the `None` entries),
`end_time` by `max`, intensity by `max`/`min`/`mean`, and `home_or_away` by
`max` — which on the strings `'Home Momentum'`/`'Away Momentum'` is the
lexicographic maximum, i.e. `Home` as soon as any record of the group is
`Home`.  `duration = end_time - momentum_start_time` (line 154). -/
def mkEpisode (k : Nat) (g : List RawRecord) : Episode :=
  let intens := g.map (fun r => r.intensity)
  let ms := (g.filterMap (fun r => r.momentumStart)).min?
  let et := listMaxN (g.map (fun r => r.endTime))
  { gameId := (g.headD default).gameId
    buildUpStart := k
    momentumStart := ms
    endTime := et
    duration := ms.map (fun m => (et : Int) - (m : Int))
    avgIntensity := intens.sum / (intens.length : ℚ)
    peakIntensityMax := listMax intens
    peakIntensityMin := listMin intens
    side := if g.any (fun r => r.side = Side.Home) then Side.Home else Side.Away }

/-- `groupby('build_up_start_time').agg(...)` over the raw records
(lines 142-158); the empty input yields the empty table (line 163). -/
def aggregateRecords (rs : List RawRecord) : List Episode :=
  (dedupKeys (rs.map (fun r => r.buildUpStart))).map (fun k =>
    mkEpisode k (rs.filter (fun r => decide (r.buildUpStart = k))))

/-- `findGameMomentumEvents` (lines 51-163): detect then aggregate. -/
def findGameMomentumEvents (events : List PbpEvent) (thr : ℚ)
    (tmin tmax : Nat) : List Episode :=
  aggregateRecords (findGameMomentumEventsRaw events thr tmin tmax)

/-- Line 189: `((eventClock - 1) // time_window) + 1` (Python floor
division, hence `Int.fdiv`; an event at clock 0 gets raw index 0). -/
def rawWindowIdx (w clock : Nat) : Int :=
  Int.fdiv ((clock : Int) - 1) (w : Int) + 1

/-- Lines 195-196: for a game whose max event time is an exact multiple of
the window width, events at the max time are re-indexed to
`max_event_time // time_window` (in fact a no-op, kept for fidelity). -/
def twAfterMaxAdjust (w maxClock clock : Nat) : Int :=
  if maxClock % w = 0 ∧ clock = maxClock then ((maxClock / w : Nat) : Int)
  else rawWindowIdx w clock

/-- Lines 206-210: remap a window index of 0 (an event at clock 0) to 1. -/
def adjTimeWindow (w maxClock clock : Nat) : Int :=
  if twAfterMaxAdjust w maxClock clock = 0 then 1
  else twAfterMaxAdjust w maxClock clock

/-- `window_start` after the lines 190 and 206-210 adjustments. -/
def adjWindowStart (w maxClock clock : Nat) : Int :=
  if twAfterMaxAdjust w maxClock clock = 0 then 0
  else (rawWindowIdx w clock - 1) * (w : Int)

/-- `window_end` after the lines 191, 199 and 206-210 adjustments
(clamped to the max event time). -/
def adjWindowEnd (w maxClock clock : Nat) : Int :=
  if twAfterMaxAdjust w maxClock clock = 0 then (w : Int)
  else min (rawWindowIdx w clock * (w : Int)) ((maxClock : Int))

/-- Lines 222-226: the ten right-closed intensity buckets of `pd.cut`. -/
def categoryOf (x : ℚ) : Nat :=
  if x ≤ -2/25 then 1
  else if x ≤ -3/50 then 2
  else if x ≤ -1/25 then 3
  else if x ≤ -1/50 then 4
  else if x ≤ 0 then 5
  else if x ≤ 1/50 then 6
  else if x ≤ 1/25 then 7
  else if x ≤ 3/50 then 8
  else if x ≤ 2/25 then 9
  else 10

/-- One output row of `calculateIntervalExplosivenessCategorical`. -/
structure IntervalRow where
  gameid : Nat
  timeWindow : Int
  momentumIntensity : ℚ
  momentumCategory : Nat
deriving DecidableEq, Repr

/-- The `(gameid, time_window)` group keys of line 216, in order of first
occurrence (with the event table sorted by clock the key sequence is
nondecreasing, so this coincides with pandas' sorted group order). -/
def intervalKeys (events : List PbpEvent) (w : Nat) : List (Nat × Int) :=
  dedupKeys (events.map (fun e =>
    (e.gameid, adjTimeWindow w (maxEventClock events) e.eventClock)))

/-- The aggregation of one `(gameid, time_window)` group (lines 216-219):
`(score_diff.iloc[-1] - score_diff.iloc[0]) / (window_end.iloc[0] -
window_start.iloc[0])`, then the categorical binning. -/
def intervalRowFor (events : List PbpEvent) (w : Nat) (key : Nat × Int) :
    IntervalRow :=
  let maxClock := maxEventClock events
  let g := events.filter (fun e =>
    decide (e.gameid = key.1 ∧ adjTimeWindow w maxClock e.eventClock = key.2))
  let e0 := g.headD default
  let e1 := g.getLastD default
  let intensity : ℚ :=
    ((scoreDiffOf e1 - scoreDiffOf e0 : Int) : ℚ) /
      ((adjWindowEnd w maxClock e0.eventClock
        - adjWindowStart w maxClock e0.eventClock : Int) : ℚ)
  ⟨key.1, key.2, intensity, categoryOf intensity⟩

/-- `calculateIntervalExplosivenessCategorical` (lines 165-228): one row per
observed `(gameid, time_window)` group. -/
def intervalRows (events : List PbpEvent) (w : Nat) : List IntervalRow :=
  (intervalKeys events w).map (intervalRowFor events w)

/-- A game whose build-up group mixes Home and Away records: differential
0, +6 (clock 3), then -14 (clock 5). -/
def gameE1 : List PbpEvent :=
  [⟨7, 0, 0, 0⟩, ⟨7, 3, 6, 0⟩, ⟨7, 5, 6, 20⟩]

/-- A game with an interval (index 2 of width 10) containing no events. -/
def gameE2 : List PbpEvent :=
  [⟨7, 5, 2, 0⟩, ⟨7, 25, 4, 0⟩]

/-- A game whose scan hits a reversal break: significant seconds 3, 4
(Home) then, after an insignificant second 5, second 6 (Away). -/
def gameE3 : List PbpEvent :=
  [⟨7, 0, 0, 0⟩, ⟨7, 3, 6, 0⟩, ⟨7, 5, 6, 4⟩, ⟨7, 6, 6, 16⟩]

/-- A game whose scan from cursor 1 breaks at a reversal in the middle of
the significant samples: significant seconds 3 (Home) and 6 (Away -
reversal, the walk breaks), with seconds 7 and 8 also significant but never
walked. -/
def gameE4 : List PbpEvent :=
  [⟨7, 0, 0, 0⟩, ⟨7, 3, 6, 0⟩, ⟨7, 4, 6, 4⟩, ⟨7, 6, 6, 16⟩, ⟨7, 8, 6, 16⟩]

/-- A game whose first event is at second 50. -/
def gameE5 : List PbpEvent :=
  [⟨7, 50, 3, 0⟩]

/-- A game whose score differential is 0 throughout. -/
def gameFlat : List PbpEvent :=
  [⟨7, 0, 10, 10⟩, ⟨7, 100, 12, 12⟩]

/-- A table that has not had its `score_diff` column written yet. -/
def tableT6 : PbpTable :=
  ⟨[⟨7, 0, 0, 0⟩, ⟨7, 3, 6, 0⟩], none⟩

/-- A one-record raw group. -/
def rawSingle : List RawRecord :=
  [⟨7, 1, some 3, 3, 3, Side.Home⟩]

/-- Modelled from the claim wording (not from the source): the candidate
window `[cursor + minLookahead, min(cursor + maxLookahead, gameDuration)]`
with `gameDuration = max(observed max elapsed second, 2880)`, to be compared
with the source's `timeRange`. -/
def claimCandidateTimes (events : List PbpEvent) (s tmin tmax : Nat) :
    List Nat :=
  (List.range (min (s + tmax) (max (maxEventClock events) 2880) + 1 -
    (s + tmin))).map (fun i => i + (s + tmin))

/-! ## Basic lemmas about the evaluation window and the significance filter -/

theorem mem_timeRange {events : List PbpEvent} {s tmin tmax t : Nat} :
    t ∈ timeRange events s tmin tmax ↔
      s + tmin ≤ t ∧ t ≤ min (s + tmax) (maxEventClock events) := by
  simp only [timeRange, List.mem_map, List.mem_range]
  constructor
  · rintro ⟨i, hi, rfl⟩
    omega
  · rintro ⟨h1, h2⟩
    exact ⟨t - (s + tmin), by omega, by omega⟩

theorem mem_calculateExplosiveness {events : List PbpEvent}
    {s tmin tmax t : Nat} {o : Option ℚ} :
    (t, o) ∈ calculateExplosiveness events s tmin tmax ↔
      t ∈ timeRange events s tmin tmax ∧
      o = Option.map (fun v : Int =>
        ((v : ℚ) - (scoreDiffStart events s : ℚ)) / ((t : ℚ) - (s : ℚ)))
        (lookupLE events t) := by
  simp only [calculateExplosiveness, List.mem_map]
  constructor
  · rintro ⟨t1, ht1, heq⟩
    obtain ⟨h1, h2⟩ := Prod.mk.injEq .. ▸ heq
    subst h1
    exact ⟨ht1, h2.symm⟩
  · rintro ⟨ht, rfl⟩
    exact ⟨t, ht, rfl⟩

theorem mem_significantSamples {events : List PbpEvent} {thr : ℚ}
    {s tmin tmax t : Nat} {q : ℚ}
    (h : (t, q) ∈ significantSamples events thr s tmin tmax) :
    (t, some q) ∈ calculateExplosiveness events s tmin tmax ∧ thr ≤ |q| := by
  simp only [significantSamples, List.mem_filterMap] at h
  obtain ⟨⟨t1, o⟩, hmem, heq⟩ := h
  cases o with
  | none => simp at heq
  | some q1 =>
    by_cases hthr : thr ≤ |q1|
    · simp only [hthr, if_pos] at heq
      obtain ⟨h1, h2⟩ := Prod.mk.injEq .. ▸ Option.some.inj heq
      subst h1; subst h2
      exact ⟨hmem, hthr⟩
    · simp [hthr] at heq

theorem significantSamples_time_bounds {events : List PbpEvent} {thr : ℚ}
    {s tmin tmax t : Nat} {q : ℚ}
    (h : (t, q) ∈ significantSamples events thr s tmin tmax) :
    s + tmin ≤ t ∧ t ≤ s + tmax := by
  have h1 := (mem_significantSamples h).1
  have h2 := (mem_calculateExplosiveness.mp h1).1
  have h3 := mem_timeRange.mp h2
  omega

/-! ## Lemmas about the walk over significant samples -/

theorem walkAux_fst_mem {gid cur tmin : Nat} :
    ∀ (samples : List (Nat × ℚ)) (dir : Side) (fs : Nat) (ms : Option Nat)
      (r : RawRecord), r ∈ (walkAux gid cur tmin samples dir fs ms).1 →
      r.gameId = gid ∧ r.buildUpStart = cur ∧
        ∃ q, (r.endTime, q) ∈ samples ∧ r.intensity = q := by
  intro samples
  induction samples with
  | nil =>
    intro dir fs ms r hr
    simp [walkAux] at hr
  | cons hd rest ih =>
    obtain ⟨t, q⟩ := hd
    intro dir fs ms r hr
    simp only [walkAux] at hr
    by_cases hbrk : 1 < (t : Int) - (fs : Int) ∧ sideOf q ≠ dir
    · rw [if_pos hbrk] at hr
      simp only [List.mem_singleton] at hr
      subst hr
      exact ⟨rfl, rfl, q, List.mem_cons_self .., rfl⟩
    · rw [if_neg hbrk] at hr
      rcases List.mem_cons.mp hr with hr | hr
      · subst hr
        exact ⟨rfl, rfl, q, List.mem_cons_self .., rfl⟩
      · obtain ⟨h1, h2, q1, hq1, hq2⟩ := ih _ _ _ _ hr
        exact ⟨h1, h2, q1, List.mem_cons_of_mem _ hq1, hq2⟩
/-! ## The cursor strictly increases at every scan step -/

theorem scanStep_cursor_lt (events : List PbpEvent) (thr : ℚ)
    (tmin tmax gid cur : Nat) :
    cur < (scanStep events thr tmin tmax gid cur).2 := by
  unfold scanStep
  cases hsig : significantSamples events thr cur tmin tmax with
  | nil => simp
  | cons hd rest =>
    obtain ⟨t0, q0⟩ := hd
    have hall : ∀ p ∈ (t0, q0) :: rest, cur ≤ p.1 := by
      intro p hp
      rw [← hsig] at hp
      obtain ⟨p1, p2⟩ := p
      have hb := significantSamples_time_bounds hp
      exact le_trans (Nat.le_add_right _ _) hb.1
    have hlast := hall _ (List.getLastD_mem_cons rest (t0, q0))
    show cur < (rest.getLastD (t0, q0)).1 + 1
    omega

/-! ## Lemmas about the scan loop -/

theorem scanLoop_of_gd_lt (events : List PbpEvent) (thr : ℚ)
    (tmin tmax gid gd : Nat) (fuel cur : Nat) (h : gd < cur) :
    scanLoop events thr tmin tmax gid gd fuel cur = [] := by
  cases fuel with
  | zero => rfl
  | succ n =>
    simp only [scanLoop]
    rw [if_neg (by omega)]

theorem scanLoop_stable (events : List PbpEvent) (thr : ℚ)
    (tmin tmax gid gd : Nat) :
    ∀ (fuel cur : Nat), gd < cur + fuel →
      scanLoop events thr tmin tmax gid gd fuel cur =
        scanLoop events thr tmin tmax gid gd (fuel + 1) cur := by
  intro fuel
  induction fuel with
  | zero =>
    intro cur h
    rw [scanLoop_of_gd_lt _ _ _ _ _ _ _ _ (by omega),
      scanLoop_of_gd_lt _ _ _ _ _ _ _ _ (by omega)]
  | succ n ih =>
    intro cur h
    by_cases hle : cur ≤ gd
    · have hlt := scanStep_cursor_lt events thr tmin tmax gid cur
      conv_lhs => rw [scanLoop]
      conv_rhs => rw [scanLoop]
      rw [if_pos hle, if_pos hle]
      dsimp only
      rw [ih _ (by omega)]
    · rw [scanLoop_of_gd_lt _ _ _ _ _ _ _ _ (by omega),
        scanLoop_of_gd_lt _ _ _ _ _ _ _ _ (by omega)]

theorem scanLoop_mem (events : List PbpEvent) (thr : ℚ)
    (tmin tmax gid gd : Nat) :
    ∀ (fuel cur : Nat) (r : RawRecord),
      r ∈ scanLoop events thr tmin tmax gid gd fuel cur →
      r.gameId = gid ∧ r.buildUpStart + tmin ≤ r.endTime ∧
        r.endTime ≤ r.buildUpStart + tmax := by
  intro fuel
  induction fuel with
  | zero =>
    intro cur r hr
    simp [scanLoop] at hr
  | succ n ih =>
    intro cur r hr
    simp only [scanLoop] at hr
    by_cases hle : cur ≤ gd
    · rw [if_pos hle] at hr
      rcases List.mem_append.mp hr with hr | hr
      · -- the record comes from this iteration's scanStep
        revert hr
        unfold scanStep
        cases hsig : significantSamples events thr cur tmin tmax with
        | nil => intro hr; simp at hr
        | cons hd rest =>
          obtain ⟨t0, q0⟩ := hd
          intro hr
          obtain ⟨h1, h2, q, hq, _⟩ := @walkAux_fst_mem gid cur tmin
            ((t0, q0) :: rest) (sideOf q0) t0 none r hr
          rw [← hsig] at hq
          have hb := significantSamples_time_bounds hq
          exact ⟨h1, by omega⟩
      · exact ih _ r hr
    · rw [if_neg hle] at hr
      simp at hr

theorem scanLoop_of_sig_empty (events : List PbpEvent) (thr : ℚ)
    (tmin tmax gid gd : Nat)
    (h : ∀ c, significantSamples events thr c tmin tmax = []) :
    ∀ (fuel cur : Nat), scanLoop events thr tmin tmax gid gd fuel cur = [] := by
  intro fuel
  induction fuel with
  | zero => intro cur; rfl
  | succ n ih =>
    intro cur
    simp only [scanLoop]
    by_cases hle : cur ≤ gd
    · rw [if_pos hle]
      have hstep : scanStep events thr tmin tmax gid cur = ([], cur + 1) := by
        unfold scanStep
        rw [h cur]
      rw [hstep]
      simpa using ih (cur + 1)
    · rw [if_neg hle]

/-! ## Lemmas about grouping and the group statistics -/

theorem mem_dedupKeys {α : Type} [DecidableEq α] :
    ∀ (l : List α) (a : α), a ∈ dedupKeys l ↔ a ∈ l := by
  intro l
  induction l with
  | nil => intro a; simp [dedupKeys]
  | cons k ks ih =>
    intro a
    simp only [dedupKeys, List.mem_cons, List.mem_filter]
    constructor
    · rintro (rfl | ⟨h1, _⟩)
      · exact .inl rfl
      · exact .inr ((ih a).mp h1)
    · rintro (rfl | h)
      · exact .inl rfl
      · by_cases hak : a = k
        · exact .inl hak
        · exact .inr ⟨(ih a).mpr h, by simpa using hak⟩

theorem nodup_dedupKeys {α : Type} [DecidableEq α] :
    ∀ (l : List α), (dedupKeys l).Nodup := by
  intro l
  induction l with
  | nil => simp [dedupKeys]
  | cons k ks ih =>
    simp only [dedupKeys, List.nodup_cons]
    constructor
    · intro hk
      have := (List.mem_filter.mp hk).2
      simp at this
    · exact List.Nodup.filter _ ih

theorem le_listMax_of_mem : ∀ {l : List ℚ} {x : ℚ}, x ∈ l → x ≤ listMax l := by
  intro l
  induction l with
  | nil => intro x hx; simp at hx
  | cons a l ih =>
    intro x hx
    cases l with
    | nil =>
      simp only [List.mem_singleton] at hx
      simp [listMax, hx]
    | cons b m =>
      rcases List.mem_cons.mp hx with rfl | hx
      · exact le_max_left _ _
      · exact le_trans (ih hx) (le_max_right _ _)

theorem listMin_le_of_mem : ∀ {l : List ℚ} {x : ℚ}, x ∈ l → listMin l ≤ x := by
  intro l
  induction l with
  | nil => intro x hx; simp at hx
  | cons a l ih =>
    intro x hx
    cases l with
    | nil =>
      simp only [List.mem_singleton] at hx
      simp [listMin, hx]
    | cons b m =>
      rcases List.mem_cons.mp hx with rfl | hx
      · exact min_le_left _ _
      · exact le_trans (min_le_right _ _) (ih hx)

theorem sum_le_length_mul_listMax :
    ∀ {l : List ℚ}, l ≠ [] → l.sum ≤ (l.length : ℚ) * listMax l := by
  intro l
  induction l with
  | nil => intro h; exact absurd rfl h
  | cons a l ih =>
    intro _
    cases l with
    | nil => simp [listMax]
    | cons b m =>
      have h1 : (b :: m).sum ≤ ((b :: m).length : ℚ) * listMax (b :: m) :=
        ih (by simp)
      have h2 : listMax (b :: m) ≤ listMax (a :: b :: m) :=
        le_max_right _ _
      have h3 : a ≤ listMax (a :: b :: m) := le_max_left _ _
      have h4 : (0 : ℚ) ≤ ((b :: m).length : ℚ) := by positivity
      calc (a :: b :: m).sum = a + (b :: m).sum := by simp
        _ ≤ listMax (a :: b :: m) + ((b :: m).length : ℚ) * listMax (b :: m) := by
            exact add_le_add h3 h1
        _ ≤ listMax (a :: b :: m) + ((b :: m).length : ℚ) * listMax (a :: b :: m) := by
            exact add_le_add_left (mul_le_mul_of_nonneg_left h2 h4) _
        _ = ((a :: b :: m).length : ℚ) * listMax (a :: b :: m) := by
            simp only [List.length_cons]
            push_cast
            ring

theorem length_mul_listMin_le_sum :
    ∀ {l : List ℚ}, l ≠ [] → (l.length : ℚ) * listMin l ≤ l.sum := by
  intro l
  induction l with
  | nil => intro h; exact absurd rfl h
  | cons a l ih =>
    intro _
    cases l with
    | nil => simp [listMin]
    | cons b m =>
      have h1 : ((b :: m).length : ℚ) * listMin (b :: m) ≤ (b :: m).sum :=
        ih (by simp)
      have h2 : listMin (a :: b :: m) ≤ listMin (b :: m) :=
        min_le_right _ _
      have h3 : listMin (a :: b :: m) ≤ a := min_le_left _ _
      have h4 : (0 : ℚ) ≤ ((b :: m).length : ℚ) := by positivity
      calc ((a :: b :: m).length : ℚ) * listMin (a :: b :: m)
          = listMin (a :: b :: m) + ((b :: m).length : ℚ) * listMin (a :: b :: m) := by
            simp only [List.length_cons]
            push_cast
            ring
        _ ≤ a + ((b :: m).length : ℚ) * listMin (b :: m) := by
            exact add_le_add h3 (mul_le_mul_of_nonneg_left h2 h4)
        _ ≤ a + (b :: m).sum := add_le_add_left h1 _
        _ = (a :: b :: m).sum := by simp

theorem le_listMaxN_of_mem : ∀ {l : List Nat} {x : Nat}, x ∈ l → x ≤ listMaxN l := by
  intro l
  induction l with
  | nil => intro x hx; simp at hx
  | cons a l ih =>
    intro x hx
    cases l with
    | nil =>
      simp only [List.mem_singleton] at hx
      simp [listMaxN, hx]
    | cons b m =>
      rcases List.mem_cons.mp hx with rfl | hx
      · exact le_max_left _ _
      · exact le_trans (ih hx) (le_max_right _ _)

theorem listMaxN_le : ∀ {l : List Nat} {b : Nat}, l ≠ [] →
    (∀ x ∈ l, x ≤ b) → listMaxN l ≤ b := by
  intro l
  induction l with
  | nil => intro b h; exact absurd rfl h
  | cons a l ih =>
    intro b _ hall
    cases l with
    | nil => exact hall a (List.mem_singleton_self a)
    | cons c m =>
      have h1 : listMaxN (c :: m) ≤ b :=
        ih (by simp) (fun x hx => hall x (List.mem_cons_of_mem _ hx))
      have h2 : a ≤ b := hall a (List.mem_cons_self ..)
      simp only [listMaxN]
      omega

theorem mem_aggregateRecords {rs : List RawRecord} {ep : Episode}
    (h : ep ∈ aggregateRecords rs) :
    ∃ k, k ∈ rs.map (fun r => r.buildUpStart) ∧
      ep = mkEpisode k (rs.filter (fun r => decide (r.buildUpStart = k))) := by
  simp only [aggregateRecords, List.mem_map] at h
  obtain ⟨k, hk, hep⟩ := h
  exact ⟨k, (mem_dedupKeys _ _).mp hk, hep.symm⟩

theorem filter_buildUpStart_ne_nil {rs : List RawRecord} {k : Nat}
    (h : k ∈ rs.map (fun r => r.buildUpStart)) :
    rs.filter (fun r => decide (r.buildUpStart = k)) ≠ [] := by
  simp only [List.mem_map] at h
  obtain ⟨r, hr, hk⟩ := h
  intro hnil
  have hmem : r ∈ rs.filter (fun r => decide (r.buildUpStart = k)) := by
    rw [List.mem_filter]
    exact ⟨hr, by simp [hk]⟩
  rw [hnil] at hmem
  simp at hmem

theorem mkEpisode_avg_between {k : Nat} {g : List RawRecord} (h : g ≠ []) :
    (mkEpisode k g).peakIntensityMin ≤ (mkEpisode k g).avgIntensity ∧
      (mkEpisode k g).avgIntensity ≤ (mkEpisode k g).peakIntensityMax := by
  have hne : g.map (fun r => r.intensity) ≠ [] := by
    simpa using h
  have hn : (0 : ℚ) < ((g.map (fun r => r.intensity)).length : ℚ) := by
    have hp : 0 < (g.map (fun r => r.intensity)).length :=
      List.length_pos.mpr hne
    exact_mod_cast hp
  simp only [mkEpisode]
  constructor
  · rw [le_div_iff₀ hn]
    calc listMin (g.map (fun r => r.intensity)) *
          ((g.map (fun r => r.intensity)).length : ℚ)
        = ((g.map (fun r => r.intensity)).length : ℚ) *
          listMin (g.map (fun r => r.intensity)) := by ring
      _ ≤ (g.map (fun r => r.intensity)).sum := length_mul_listMin_le_sum hne
  · rw [div_le_iff₀ hn]
    calc (g.map (fun r => r.intensity)).sum
        ≤ ((g.map (fun r => r.intensity)).length : ℚ) *
          listMax (g.map (fun r => r.intensity)) := sum_le_length_mul_listMax hne
      _ = listMax (g.map (fun r => r.intensity)) *
          ((g.map (fun r => r.intensity)).length : ℚ) := by ring

/-! ## Claim C4: the evaluation window at each cursor -/

/-- C4, counterexample: with the observed max event second 5 (below 2880),
evaluating from cursor 1 with `maxLookahead = 2000` stops at second 5; the
claimed window `[3, min(2001, max(5, 2880))] = [3, 2001]` contains 2001, but
the code's window does not — the evaluator caps at the observed max event
second, not at the 2880 regulation floor. -/
theorem claimC4Counterexample :
    (calculateExplosiveness gameE1 1 2 2000).map Prod.fst = [3, 4, 5] ∧
    2001 ∈ claimCandidateTimes gameE1 1 2 2000 ∧
    2001 ∉ timeRange gameE1 1 2 2000 ∧
    maxEventClock gameE1 < 2880 := by decide!

/-- C4 (amended): at every cursor the detector evaluates explosiveness
exactly over the candidate times
`[cursor + minLookahead, min(cursor + maxLookahead, observed max event
second)]` inclusive: the 2880 regulation floor bounds only the outer cursor
scan, not the evaluation window. -/
theorem claimC4AmendedWindow (events : List PbpEvent) (s tmin tmax t : Nat) :
    (∃ o, (t, o) ∈ calculateExplosiveness events s tmin tmax) ↔
      (s + tmin ≤ t ∧ t ≤ min (s + tmax) (maxEventClock events)) := by
  constructor
  · rintro ⟨o, ho⟩
    exact mem_timeRange.mp (mem_calculateExplosiveness.mp ho).1
  · intro hb
    exact ⟨_, mem_calculateExplosiveness.mpr ⟨mem_timeRange.mpr hb, rfl⟩⟩

/-! ## Claim C5: the signal before the first recorded event -/

/-- C5, counterexample: in a game whose first event is at second 50,
the candidate time 3 (from cursor 1) looks up no differential at all
(pandas NaN, here `none`) rather than the claimed default 0: the sample
`(3, some ((0 - reference) / (3 - 1)))` the claim predicts is absent. -/
theorem claimC5Counterexample :
    lookupLE gameE5 3 = none ∧
    (3, (none : Option ℚ)) ∈ calculateExplosiveness gameE5 1 2 100 ∧
    (3, some ((0 - (scoreDiffStart gameE5 1 : ℚ)) / ((3 : ℚ) - 1))) ∉
      calculateExplosiveness gameE5 1 2 100 := by decide!

/-- C5 (amended): for every candidate time `t` that precedes every recorded
event second, the forward-filled differential is undefined (pandas NaN,
modelled `none`), the evaluator emits the sample `(t, none)`, and such a
sample is never significant, whatever the threshold; the caller-supplied
default 0 applies only to the reference differential before the cursor. -/
theorem claimC5AmendedNaNBeforeFirstEvent (events : List PbpEvent) (thr : ℚ)
    (s tmin tmax t : Nat) (hpre : ∀ e ∈ events, t < e.eventClock) :
    ((t, (none : Option ℚ)) ∈ calculateExplosiveness events s tmin tmax ↔
      t ∈ timeRange events s tmin tmax) ∧
    ∀ q : ℚ, (t, q) ∉ significantSamples events thr s tmin tmax := by
  have hfind : events.reverse.find? (fun e => e.eventClock ≤ t) = none := by
    rw [List.find?_eq_none]
    intro e he
    have he2 := List.mem_reverse.mp he
    have h3 := hpre e he2
    simp only [decide_eq_true_eq]
    omega
  have hlk : lookupLE events t = none := by
    simp [lookupLE, hfind]
  constructor
  · constructor
    · intro h
      exact (mem_calculateExplosiveness.mp h).1
    · intro h
      refine mem_calculateExplosiveness.mpr ⟨h, ?_⟩
      rw [hlk]
      simp
  · intro q hq
    have h1 := (mem_significantSamples hq).1
    have h2 := (mem_calculateExplosiveness.mp h1).2
    rw [hlk] at h2
    simp at h2

/-- Witness for C5 (amended) at the concrete game `gameE5`. -/
theorem claimC5Witness :
    ((3, (none : Option ℚ)) ∈ calculateExplosiveness gameE5 1 2 100 ↔
      3 ∈ timeRange gameE5 1 2 100) ∧
    (3, (0 : ℚ)) ∉ significantSamples gameE5 1 1 2 100 :=
  ⟨(claimC5AmendedNaNBeforeFirstEvent gameE5 1 1 2 100 3 (by decide)).1,
   (claimC5AmendedNaNBeforeFirstEvent gameE5 1 1 2 100 3 (by decide)).2 0⟩

/-! ## Claim C6: the evaluator's frame effect on its input table -/

/-- C6, counterexample: calling the evaluator on a table that does not yet
carry the derived `score_diff` column changes the table — line 31 writes
that column onto the caller's frame, so the evaluator is not free of side
effects on its input. -/
theorem claimC6Counterexample :
    (calculateExplosivenessTable tableT6 1 2 5).1 ≠ tableT6 := by decide

/-- C6 (amended): the evaluator's only side effect on its input table is
writing the derived `score_diff` column; the event rows are unchanged, the
returned series is a pure function of the rows alone, and the effect is
idempotent. -/
theorem claimC6AmendedFrameEffect (tbl : PbpTable) (s tmin tmax : Nat) :
    (calculateExplosivenessTable tbl s tmin tmax).1.rows = tbl.rows ∧
    (calculateExplosivenessTable tbl s tmin tmax).2 =
      calculateExplosiveness tbl.rows s tmin tmax ∧
    (calculateExplosivenessTable tbl s tmin tmax).1.scoreDiffCol =
      some (tbl.rows.map scoreDiffOf) ∧
    (calculateExplosivenessTable
        (calculateExplosivenessTable tbl s tmin tmax).1 s tmin tmax).1 =
      (calculateExplosivenessTable tbl s tmin tmax).1 :=
  ⟨rfl, rfl, rfl, rfl⟩

/-! ## Claim C2: interval coverage of the categorizer -/

/-- C2, counterexample: with interval width 10 and events at seconds 5 and
25 (max event time 25), the categorizer outputs two rows with interval
indices 1 and 3 — not `ceil(25 / 10) = 3` rows, the indices are not
contiguous, and the empty interval 2 gets no row at all (in particular no
row with `rawIntensity = 0`). -/
theorem claimC2Counterexample :
    (intervalRows gameE2 10).map (fun row => row.timeWindow) = [1, 3] ∧
    (intervalRows gameE2 10).length = 2 ∧
    (2 : Int) ∉ (intervalRows gameE2 10).map (fun row => row.timeWindow) := by
  decide!

/-- C2 (amended): the categorizer produces exactly one row per distinct
`(gameid, window index)` pair observed among the events — rows are in
bijection with the event-containing intervals, with no duplicates; an
interval containing zero events produces no row. -/
theorem claimC2AmendedIntervalCoverage (events : List PbpEvent) (w : Nat) :
    ((intervalRows events w).map (fun row => (row.gameid, row.timeWindow)) =
      intervalKeys events w) ∧
    ((intervalRows events w).map
      (fun row => (row.gameid, row.timeWindow))).Nodup ∧
    ∀ g k, ((g, k) ∈ (intervalRows events w).map
        (fun row => (row.gameid, row.timeWindow)) ↔
      ∃ e ∈ events, e.gameid = g ∧
        adjTimeWindow w (maxEventClock events) e.eventClock = k) := by
  have h1 : (intervalRows events w).map
      (fun row => (row.gameid, row.timeWindow)) = intervalKeys events w := by
    rw [intervalRows, List.map_map]
    have h2 : ∀ key ∈ intervalKeys events w,
        ((fun row => (row.gameid, row.timeWindow)) ∘
          intervalRowFor events w) key = key := by
      intro key _
      rfl
    rw [List.map_congr_left h2]
    simp
  refine ⟨h1, h1 ▸ nodup_dedupKeys _, ?_⟩
  intro g k
  rw [h1, intervalKeys, mem_dedupKeys]
  simp only [List.mem_map, Prod.mk.injEq]

/-! ## Claim C7: the episode intensity statistics are ordered -/

/-- C7: for every aggregated momentum episode — every grouping key yields a
nonempty group — the intensity statistics satisfy
`peakIntensityMin ≤ avgIntensity ≤ peakIntensityMax`, being the minimum,
mean and maximum of the same nonempty list of intensities
(`findGameMomentumEvents` is by definition `aggregateRecords` applied to
the detector's raw records). -/
theorem claimC7PeakBounds (rs : List RawRecord) (ep : Episode)
    (hep : ep ∈ aggregateRecords rs) :
    ep.peakIntensityMin ≤ ep.avgIntensity ∧
      ep.avgIntensity ≤ ep.peakIntensityMax := by
  obtain ⟨k, hk, rfl⟩ := mem_aggregateRecords hep
  exact mkEpisode_avg_between (filter_buildUpStart_ne_nil hk)

/-- Witness for C7 at the concrete one-record group `rawSingle`. -/
theorem claimC7Witness :
    (mkEpisode 1 rawSingle).peakIntensityMin ≤
        (mkEpisode 1 rawSingle).avgIntensity ∧
      (mkEpisode 1 rawSingle).avgIntensity ≤
        (mkEpisode 1 rawSingle).peakIntensityMax :=
  claimC7PeakBounds rawSingle (mkEpisode 1 rawSingle) (by decide!)

/-! ## Claim C1: the aggregated episode's side -/

/-- C1, counterexample: on `gameE1` the detector emits for build-up 1 the
records Home (end 3), Home (end 4), Away (end 5); the record with the
maximal endTime is the last one, its intensity -7/2 is negative, so the
claim predicts side Away — but the aggregated episode's side is Home,
because the aggregation takes `max` of the side strings and
`'Home Momentum' > 'Away Momentum'` lexicographically. -/
theorem claimC1Counterexample :
    findGameMomentumEventsRaw gameE1 1 2 5 =
      [⟨7, 1, some 3, 3, 3, Side.Home⟩, ⟨7, 1, some 3, 4, 2, Side.Home⟩,
       ⟨7, 1, some 3, 5, -7/2, Side.Away⟩] ∧
    (findGameMomentumEvents gameE1 1 2 5).map
      (fun ep => (ep.endTime, ep.side)) = [(5, Side.Home)] := by
  decide!

/-- C1 (amended): the aggregated episode's side is the maximum of the
group's side labels in the string order `'Away Momentum' < 'Home Momentum'`:
Home exactly when some record of the group is Home, Away only when every
record of the group is Away — not the side of the record with the maximal
endTime. -/
theorem claimC1AmendedSideIsMax (rs : List RawRecord) (ep : Episode)
    (hep : ep ∈ aggregateRecords rs) :
    ep.side = Side.Home ↔
      ∃ r ∈ rs, r.buildUpStart = ep.buildUpStart ∧ r.side = Side.Home := by
  obtain ⟨k, hk, rfl⟩ := mem_aggregateRecords hep
  have hbus : (mkEpisode k
      (rs.filter (fun r => decide (r.buildUpStart = k)))).buildUpStart = k :=
    rfl
  rw [hbus]
  constructor
  · intro hside
    by_cases hany : (rs.filter (fun r => decide (r.buildUpStart = k))).any
        (fun r => r.side = Side.Home)
    · obtain ⟨r, hr, hrs⟩ := List.any_eq_true.mp hany
      have hr2 := List.mem_filter.mp hr
      refine ⟨r, hr2.1, ?_, ?_⟩
      · simpa using hr2.2
      · simpa using hrs
    · exfalso
      have : (mkEpisode k
          (rs.filter (fun r => decide (r.buildUpStart = k)))).side =
          Side.Away := by
        simp only [mkEpisode]
        rw [if_neg (by simpa using hany)]
      rw [this] at hside
      exact Side.noConfusion hside
  · rintro ⟨r, hr, hbus2, hside⟩
    have hrf : r ∈ rs.filter (fun r => decide (r.buildUpStart = k)) := by
      rw [List.mem_filter]
      exact ⟨hr, by simp [hbus2]⟩
    have hany : (rs.filter (fun r => decide (r.buildUpStart = k))).any
        (fun r => r.side = Side.Home) = true :=
      List.any_eq_true.mpr ⟨r, hrf, by simp [hside]⟩
    simp only [mkEpisode]
    rw [if_pos hany]

/-- Witness for C1 (amended) at the concrete one-record group `rawSingle`. -/
theorem claimC1Witness :
    (mkEpisode 1 rawSingle).side = Side.Home ↔
      ∃ r ∈ rawSingle,
        r.buildUpStart = (mkEpisode 1 rawSingle).buildUpStart ∧
          r.side = Side.Home :=
  claimC1AmendedSideIsMax rawSingle (mkEpisode 1 rawSingle) (by decide!)

/-! ## Flat games: no second is ever significant -/

theorem lookupLE_flat {events : List PbpEvent}
    (h0 : ∀ e ∈ events, e.scoreHome = e.scoreAway) {t : Nat} {v : Int}
    (h : lookupLE events t = some v) : v = 0 := by
  rw [lookupLE, Option.map_eq_some'] at h
  obtain ⟨e, hfind, hv⟩ := h
  have he : e ∈ events := List.mem_reverse.mp (List.mem_of_find?_eq_some hfind)
  have h1 := h0 e he
  rw [← hv]
  simp [scoreDiffOf, h1]

theorem lookupLT_flat {events : List PbpEvent}
    (h0 : ∀ e ∈ events, e.scoreHome = e.scoreAway) {t : Nat} {v : Int}
    (h : lookupLT events t = some v) : v = 0 := by
  rw [lookupLT, Option.map_eq_some'] at h
  obtain ⟨e, hfind, hv⟩ := h
  have he : e ∈ events := List.mem_reverse.mp (List.mem_of_find?_eq_some hfind)
  have h1 := h0 e he
  rw [← hv]
  simp [scoreDiffOf, h1]

theorem scoreDiffStart_flat {events : List PbpEvent}
    (h0 : ∀ e ∈ events, e.scoreHome = e.scoreAway) (s : Nat) :
    scoreDiffStart events s = 0 := by
  cases h : lookupLT events s with
  | none => simp [scoreDiffStart, h]
  | some v =>
    have hv := lookupLT_flat h0 h
    simp [scoreDiffStart, h, hv]

theorem significantSamples_of_flat (events : List PbpEvent) (thr : ℚ)
    (h0 : ∀ e ∈ events, e.scoreHome = e.scoreAway) (hthr : 0 < thr) :
    ∀ s tmin tmax, significantSamples events thr s tmin tmax = [] := by
  intro s tmin tmax
  rw [significantSamples, List.filterMap_eq_nil_iff]
  intro p hp
  obtain ⟨t, o⟩ := p
  have h2 := (mem_calculateExplosiveness.mp hp).2
  cases hlk : lookupLE events t with
  | none =>
    rw [hlk] at h2
    simp only [Option.map_none'] at h2
    subst h2
    rfl
  | some v =>
    have hv : v = 0 := lookupLE_flat h0 hlk
    rw [hlk, hv, scoreDiffStart_flat h0 s] at h2
    norm_num at h2
    subst h2
    show (if thr ≤ |(0 : ℚ)| then some (t, (0 : ℚ)) else none) = none
    rw [if_neg (by simpa using not_le.mpr hthr)]

/-! ## Claim C8: no significance means an empty episode table -/

/-- C8: when no evaluated second at any cursor is significant (the
significance filter is empty at every cursor), the detector emits no raw
records and the aggregation returns the empty episode table — an ordinary
outcome, not an error. -/
theorem claimC8EmptyWhenNoSignificance (events : List PbpEvent) (thr : ℚ)
    (tmin tmax : Nat)
    (h : ∀ c, significantSamples events thr c tmin tmax = []) :
    findGameMomentumEventsRaw events thr tmin tmax = [] ∧
    findGameMomentumEvents events thr tmin tmax = [] := by
  have h1 : findGameMomentumEventsRaw events thr tmin tmax = [] :=
    scanLoop_of_sig_empty events thr tmin tmax _ _ h _ _
  refine ⟨h1, ?_⟩
  rw [findGameMomentumEvents, h1]
  rfl

/-- Witness for C8 at the flat game `gameFlat` with threshold 1. -/
theorem claimC8Witness :
    findGameMomentumEventsRaw gameFlat 1 2 5 = [] ∧
    findGameMomentumEvents gameFlat 1 2 5 = [] :=
  claimC8EmptyWhenNoSignificance gameFlat 1 2 5
    (fun c => significantSamples_of_flat gameFlat 1 (by decide) (by decide)
      c 2 5)

/-! ## Claim C9: the scan terminates -/

/-- C9: the cursor strictly increases on every iteration of the scan — by
1 when no significant samples are found, otherwise (line 135, which runs
after the walk whether it broke or exhausted) to one past the last
significant sample, itself at least `cursor + minLookahead` — so the
loop's value is stable once the fuel exceeds `gameDuration + 1 - cur`
(at most `gameDuration` advances happen) and the loop yields nothing once
the cursor passes the game duration. -/
theorem claimC9Termination (events : List PbpEvent) (thr : ℚ)
    (tmin tmax gid gd : Nat) :
    (∀ cur, cur < (scanStep events thr tmin tmax gid cur).2) ∧
    (∀ fuel cur, gd < cur + fuel →
      scanLoop events thr tmin tmax gid gd fuel cur =
        scanLoop events thr tmin tmax gid gd (fuel + 1) cur) ∧
    (∀ fuel cur, gd < cur →
      scanLoop events thr tmin tmax gid gd fuel cur = []) :=
  ⟨fun cur => scanStep_cursor_lt events thr tmin tmax gid cur,
   fun fuel cur h => scanLoop_stable events thr tmin tmax gid gd fuel cur h,
   fun fuel cur h => scanLoop_of_gd_lt events thr tmin tmax gid gd fuel cur h⟩

/-- Witness for C9 at the concrete game `gameFlat`. -/
theorem claimC9Witness :
    1 < (scanStep gameFlat 1 2 5 7 1).2 ∧
    scanLoop gameFlat 1 2 5 7 2880 2881 1 =
      scanLoop gameFlat 1 2 5 7 2880 2882 1 ∧
    scanLoop gameFlat 1 2 5 7 2880 5 2881 = [] :=
  ⟨(claimC9Termination gameFlat 1 2 5 7 2880).1 1,
   (claimC9Termination gameFlat 1 2 5 7 2880).2.1 2881 1 (by decide),
   (claimC9Termination gameFlat 1 2 5 7 2880).2.2 5 2881 (by decide)⟩

/-! ## Claim C10: every record's end time lies in the build-up window -/

/-- C10: every raw record's endTime lies in
`[buildUpStart + minLookahead, buildUpStart + maxLookahead]` (its end time
is a sample of the evaluation window anchored at the cursor it was emitted
from), and hence so does every aggregated episode's endTime, the group
maximum over records sharing that buildUpStart. -/
theorem claimC10EndTimeWindow (events : List PbpEvent) (thr : ℚ)
    (tmin tmax : Nat) :
    (∀ r ∈ findGameMomentumEventsRaw events thr tmin tmax,
      r.buildUpStart + tmin ≤ r.endTime ∧
        r.endTime ≤ r.buildUpStart + tmax) ∧
    (∀ ep ∈ findGameMomentumEvents events thr tmin tmax,
      ep.buildUpStart + tmin ≤ ep.endTime ∧
        ep.endTime ≤ ep.buildUpStart + tmax) := by
  have hraw : ∀ r ∈ findGameMomentumEventsRaw events thr tmin tmax,
      r.buildUpStart + tmin ≤ r.endTime ∧
        r.endTime ≤ r.buildUpStart + tmax := by
    intro r hr
    have h1 := scanLoop_mem events thr tmin tmax (maxGameId events)
      (gameDurationOf events) (gameDurationOf events + 1) 1 r hr
    exact ⟨h1.2.1, h1.2.2⟩
  refine ⟨hraw, ?_⟩
  intro ep hep
  obtain ⟨k, hk, rfl⟩ := mem_aggregateRecords hep
  have hbus : (mkEpisode k ((findGameMomentumEventsRaw events thr tmin
      tmax).filter (fun r => decide (r.buildUpStart = k)))).buildUpStart =
      k := rfl
  have het : (mkEpisode k ((findGameMomentumEventsRaw events thr tmin
      tmax).filter (fun r => decide (r.buildUpStart = k)))).endTime =
      listMaxN (((findGameMomentumEventsRaw events thr tmin tmax).filter
        (fun r => decide (r.buildUpStart = k))).map
        (fun r => r.endTime)) := rfl
  rw [hbus, het]
  have hgne : (findGameMomentumEventsRaw events thr tmin tmax).filter
      (fun r => decide (r.buildUpStart = k)) ≠ [] :=
    filter_buildUpStart_ne_nil hk
  have hmapne : ((findGameMomentumEventsRaw events thr tmin tmax).filter
      (fun r => decide (r.buildUpStart = k))).map
      (fun r => r.endTime) ≠ [] := by
    simpa using hgne
  constructor
  · obtain ⟨r0, hr0⟩ := List.exists_mem_of_ne_nil _ hgne
    have hr0f := List.mem_filter.mp hr0
    have hb := hraw r0 hr0f.1
    have hk0 : r0.buildUpStart = k := by simpa using hr0f.2
    have h2 : r0.endTime ≤ listMaxN
        (((findGameMomentumEventsRaw events thr tmin tmax).filter
          (fun r => decide (r.buildUpStart = k))).map
          (fun r => r.endTime)) :=
      le_listMaxN_of_mem (List.mem_map_of_mem _ hr0)
    omega
  · refine listMaxN_le hmapne ?_
    intro x hx
    obtain ⟨r1, hr1, rfl⟩ := List.mem_map.mp hx
    have hr1f := List.mem_filter.mp hr1
    have hb := hraw r1 hr1f.1
    have hk1 : r1.buildUpStart = k := by simpa using hr1f.2
    omega

/-- Witness for C10 at the first raw record of `gameE1`. -/
theorem claimC10Witness :
    (rawSingle.headD default).buildUpStart + 2 ≤
        (rawSingle.headD default).endTime ∧
      (rawSingle.headD default).endTime ≤
        (rawSingle.headD default).buildUpStart + 5 :=
  (claimC10EndTimeWindow gameE1 1 2 5).1 (rawSingle.headD default)
    (by decide!)

/-! ## Claim C3: the reversal break -/

/-- C3: the walk does break at the reversal — on `gameE4` the significant
samples are seconds 3 (Home), 6 (Away), 7 and 8 (Away); the walk emits the
final record for the build-up at the reversal `t = 6` (side from the
current sample's sign) and visits none of the later samples — and line 117
assigns the cursor the reversal time; but line 135 executes after the
break too (it is indented at the `for` statement's level) and overwrites
that assignment, so the scan step's new cursor is one past the last
significant sample (9), not the reversal time 6: the next scan iteration
never starts from cursor = t. -/
theorem claimC3CodeDivergence :
    significantSamples gameE4 1 1 2 7 =
      [(3, 3), (6, -2), (7, -5/3), (8, -10/7)] ∧
    walkAux 7 1 2 [(3, 3), (6, -2), (7, -5/3), (8, -10/7)] Side.Home 3
        none =
      ([⟨7, 1, some 3, 3, 3, Side.Home⟩, ⟨7, 1, some 3, 6, -2, Side.Away⟩],
        some 6) ∧
    scanStep gameE4 1 2 7 7 1 =
      ([⟨7, 1, some 3, 3, 3, Side.Home⟩, ⟨7, 1, some 3, 6, -2, Side.Away⟩],
        9) ∧
    (scanStep gameE4 1 2 7 7 1).2 ≠ 6 := by
  decide!
